import Mathlib

/-!
# A shallow embedding of the `yap` terminal pager core

This file embeds, in Lean, the viewport/document engine of the `yap` pager:

* `src/ui/vec2.rs` — the `Vec2` geometry type;
* `src/ui/document.rs` — the `Document` capability, `FileDocument`, and
  `DocumentView` with its navigation operations and render pipeline;
* `src/ui.rs` — the `UiState` controller (its own `Vec2` is identical to the
  one above and is shared here), with `handle_event`, `handle_line`,
  `scroll_down`, `scroll_up`, `handle_resize`, `draw_status_bar`,
  `redraw_document`, `queue_line` and the pane-geometry helpers.

Modelling conventions:

* A Rust `String` line is represented by its sequence of Unicode codepoints
  (`List Char`).  Byte-level structure, which the source manipulates through
  `char_indices` and byte-range slicing `&line[start..end]`, is recovered via
  `Char.utf8Size`.
* Fallible computations return `Option`: `none` models a Rust panic
  (out-of-bounds `Vec` indexing, byte slicing off a character boundary or past
  the end, the `unreachable!` macro, and debug-mode underflow of `usize`
  subtraction, which is modelled by checked subtraction).
* Terminal output is made explicit: instead of queueing writes on `stdout`,
  every drawing operation returns the list of terminal commands (`Cmd`) it
  queues, in order.  A `crossterm::Result` return value is modelled by the
  `Option`: `some` is `Ok`, and I/O errors of the backend are out of scope.
* Rust iterator semantics are kept exactly: `Iterator::nth(n)` consumes
  `n + 1` elements and yields the `n`-th, so the second `nth` in `queue_line`
  indexes from one past the previously consumed element.
-/

namespace Yap

/-- A line of text as its sequence of Unicode codepoints. -/
abbrev Line := List Char

/-- The UTF-8 byte length of a line (Rust `str::len`). -/
def utf8Len (l : Line) : Nat := (l.map Char.utf8Size).sum

/-- Byte offsets of each character, starting at byte `b`
(the indices produced by Rust `str::char_indices`). -/
def charIndicesAux (b : Nat) : Line → List Nat
  | [] => []
  | c :: cs => b :: charIndicesAux (b + c.utf8Size) cs

/-- Byte offset of each character of the line (Rust `str::char_indices`,
keeping only the indices). -/
def charIndices (l : Line) : List Nat := charIndicesAux 0 l

/-- Take the first `n` bytes of a line, provided `n` lands on a character
boundary within the line; `none` models the Rust panic on a byte-range slice
that is out of range or not on a character boundary. -/
def takeBytes : Line → Nat → Option Line
  | _, 0 => some []
  | [], _ + 1 => none
  | c :: cs, n + 1 =>
    if c.utf8Size ≤ n + 1 then (takeBytes cs (n + 1 - c.utf8Size)).map (c :: ·)
    else none

/-- Drop the first `n` bytes of a line, provided `n` lands on a character
boundary within the line. -/
def dropBytes : Line → Nat → Option Line
  | l, 0 => some l
  | [], _ + 1 => none
  | c :: cs, n + 1 =>
    if c.utf8Size ≤ n + 1 then dropBytes cs (n + 1 - c.utf8Size)
    else none

/-- The byte-range slice `&line[s..e]` of Rust: defined exactly when `s ≤ e`,
both `s` and `e` are character boundaries, and `e` is within the line;
otherwise `none` (a panic). -/
def sliceBytes (l : Line) (s e : Nat) : Option Line :=
  if s ≤ e then (dropBytes l s).bind (fun t => takeBytes t (e - s)) else none

/-- Checked `usize` subtraction: Rust debug-mode `a - b` panics on underflow. -/
def checkedSub (a b : Nat) : Option Nat :=
  if b ≤ a then some (a - b) else none

/-- The terminal commands the UI queues through crossterm. -/
inductive Cmd where
  | moveTo (x y : Nat)
  | print (s : Line)
  | clearUntilNewLine
  | clearAll
  | moveToNextLine (n : Nat)
  | setAttrReverse
  | setAttrNoReverse
  | flush
  deriving DecidableEq, Repr

/-- `src/ui/vec2.rs`: a two vector, representing sizes and positions in the
terminal (`x`, `y` are `usize`).  `src/ui.rs` declares an identical copy;
both are modelled by this one type.  `Vec2::default()` is `⟨0, 0⟩`. -/
structure Vec2 where
  x : Nat
  y : Nat
  deriving DecidableEq, Repr

/-- A half-open Rust range `a..b` of `usize`. -/
structure NatRange where
  start : Nat
  stop : Nat
  deriving DecidableEq, Repr

/-- Rust `Range::contains`. -/
def NatRange.contains (r : NatRange) (i : Nat) : Prop :=
  r.start ≤ i ∧ i < r.stop

instance (r : NatRange) (i : Nat) : Decidable (r.contains i) := by
  unfold NatRange.contains; infer_instance

/-- Rust `ExactSizeIterator::len` of a range (`b - a`, saturating since a
range with `start > stop` is empty). -/
def NatRange.len (r : NatRange) : Nat := r.stop - r.start

/-- The list of indices of the range, for iterating `for y in a..b`. -/
def NatRange.toList (r : NatRange) : List Nat :=
  (List.range r.len).map (r.start + ·)

/-- `src/ui/document.rs`: the document representing the file being read.
`lines` is the `Vec<String>` of lines, `max_line_len` the running maximum
character count. -/
structure FileDocument where
  lines : List Line
  max_line_len : Nat
  deriving DecidableEq, Repr

namespace FileDocument

/-- `FileDocument::new` (the capacity hint is irrelevant to the model). -/
def new : FileDocument := ⟨[], 0⟩

/-- `FileDocument::push_line`: append the line, update the running maximum
using the character count (`line.chars().count()`), and return the new
document together with the index of the inserted line. -/
def push_line (d : FileDocument) (line : Line) : FileDocument × Nat :=
  let index := d.lines.length
  ({ lines := d.lines ++ [line],
     max_line_len := max d.max_line_len line.length }, index)

/-- The `Document` trait method `len`. -/
def len (d : FileDocument) : Nat := d.lines.length

/-- The `Index<usize>` impl: `&self.lines[index]`, `none` on the
out-of-bounds panic. -/
def index? (d : FileDocument) (i : Nat) : Option Line := d.lines[i]?

end FileDocument

/-- The second `nth` call of the two `queue_line` functions: the byte offset
one past the last printed character.  After `char_indices.nth(offset.x)` the
iterator has consumed characters `0..=offset.x`, so `nth(k)` yields the byte
offset of character `offset.x + 1 + k`, defaulting to the byte length of the
line (`unwrap_or(line.len())`).  `DocumentView::queue_line` passes
`k = size.x`; `UiState::queue_line` passes `k = document_pane_cols().len()`. -/
def qlStop (l : Line) (offx k : Nat) : Nat :=
  (((charIndices l).drop (offx + 1))[k]?).getD (utf8Len l)

/-- `src/ui/document.rs`: a view into a document.  The document capability is
instantiated at `FileDocument`, the only variant present in the source. -/
structure DocumentView where
  document : FileDocument
  offset : Vec2
  size : Vec2
  deriving DecidableEq, Repr

namespace DocumentView

/-- `DocumentView::new`: offset starts at `Vec2::default() = (0, 0)`. -/
def new (document : FileDocument) (size : Vec2) : DocumentView :=
  ⟨document, ⟨0, 0⟩, size⟩

/-- `DocumentView::resize`. -/
def resize (v : DocumentView) (new_size : Vec2) : DocumentView :=
  { v with size := new_size }

/-- `visible_lines`: the range of lines in the document that are visible. -/
def visible_lines (v : DocumentView) : NatRange :=
  ⟨v.offset.y, min (v.offset.y + v.size.y) v.document.len⟩

/-- `visible_pane_rows`: the range of lines that would be visible, unbounded
by the size of the document. -/
def visible_pane_rows (v : DocumentView) : NatRange :=
  ⟨v.offset.y, v.offset.y + v.size.y⟩

/-- `DocumentView::queue_line`: print the visible slice of line `index`.
The character at position `offset.x` gives the start byte; if the line is too
short the row is just cleared.  The end byte comes from `nth(self.size.x)` on
the remaining `char_indices` iterator. -/
def queue_line (v : DocumentView) (index : Nat) : Option (List Cmd) :=
  (v.document.index? index).bind fun line =>
    match (charIndices line)[v.offset.x]? with
    | none => some [Cmd.clearUntilNewLine, Cmd.moveToNextLine 1]
    | some s =>
      (sliceBytes line s (qlStop line v.offset.x v.size.x)).map fun cs =>
        [Cmd.print cs, Cmd.clearUntilNewLine, Cmd.moveToNextLine 1]

/-- The body of `redraw`'s `for y in self.visible_lines()` loop. -/
def queueLines (v : DocumentView) : List Nat → Option (List Cmd)
  | [] => some []
  | y :: ys =>
    (v.queue_line y).bind fun out => (v.queueLines ys).map fun rest => out ++ rest

/-- `DocumentView::redraw`: move to the top left, queue every visible line,
then flush. -/
def redraw (v : DocumentView) : Option (List Cmd) :=
  (v.queueLines v.visible_lines.toList).map fun outs =>
    Cmd.moveTo 0 0 :: outs ++ [Cmd.flush]

/-- `DocumentView::pan_left`: pan left by one column if we are not at the
first column of the document. -/
def pan_left (v : DocumentView) : Option (DocumentView × List Cmd) :=
  if v.offset.x > 0 then
    let v2 := { v with offset := { v.offset with x := v.offset.x - 1 } }
    v2.redraw.map fun out => (v2, out)
  else some (v, [])

/-- `DocumentView::scroll_down`: scroll down by one line if there is at least
one more line of text off-screen. -/
def scroll_down (v : DocumentView) : Option (DocumentView × List Cmd) :=
  if v.document.len > v.offset.y + v.size.y then
    let v2 := { v with offset := { v.offset with y := v.offset.y + 1 } }
    v2.redraw.map fun out => (v2, out)
  else some (v, [])

/-- `DocumentView::scroll_up`: scroll up by one line if we are not at the top
of the document. -/
def scroll_up (v : DocumentView) : Option (DocumentView × List Cmd) :=
  if v.offset.y > 0 then
    let v2 := { v with offset := { v.offset with y := v.offset.y - 1 } }
    v2.redraw.map fun out => (v2, out)
  else some (v, [])

/-- `DocumentView::pan_right`: pan right by one column if there is at least
one more column of text off-screen. -/
def pan_right (v : DocumentView) : Option (DocumentView × List Cmd) :=
  if v.document.max_line_len > v.offset.x + v.size.x then
    let v2 := { v with offset := { v.offset with x := v.offset.x + 1 } }
    v2.redraw.map fun out => (v2, out)
  else some (v, [])

/-- `DocumentView::prev_page`: scroll up by up to half the height of the
terminal if we are not at the top of the document. -/
def prev_page (v : DocumentView) : Option (DocumentView × List Cmd) :=
  let page_size := min (v.size.y / 2) v.offset.y
  if v.offset.y > 0 then
    let v2 := { v with offset := { v.offset with y := v.offset.y - page_size } }
    v2.redraw.map fun out => (v2, out)
  else some (v, [])

/-- `DocumentView::next_page`: scroll down by an entire half-page if we can;
otherwise, if we are not at the end of the document, scroll to the end. -/
def next_page (v : DocumentView) : Option (DocumentView × List Cmd) :=
  let page_size := v.size.y / 2
  if v.document.len ≥ v.size.y + v.offset.y + page_size then
    let v2 := { v with offset := { v.offset with y := v.offset.y + page_size } }
    v2.redraw.map fun out => (v2, out)
  else if v.document.len > v.size.y + v.offset.y then
    let v2 := { v with offset := { v.offset with y := v.document.len - v.size.y } }
    v2.redraw.map fun out => (v2, out)
  else some (v, [])

/-- `DocumentView::queue_line_if_visible`: draw the line and report `true`
exactly when `index` is within the current visible window. -/
def queue_line_if_visible (v : DocumentView) (index : Nat) :
    Option (Bool × List Cmd) :=
  if v.visible_pane_rows.contains index then
    (v.queue_line index).map fun out => (true, out)
  else some (false, [])

end DocumentView

/-- `src/ui.rs`: the crossterm key codes the dispatcher can receive.  The
source matches only on `key.code`; modifiers are not inspected.  Besides
character keys, the codes relevant to the spec's key surface are kept. -/
inductive KeyCode where
  | char (c : Char)
  | pageUp
  | pageDown
  | enter
  | esc
  deriving DecidableEq, Repr

/-- `src/ui.rs`: the crossterm events the dispatcher can receive.  The
payload of `Event::Mouse(..)` is never inspected by the source and is
omitted. -/
inductive Event where
  | key (code : KeyCode)
  | mouse
  | resize (x y : Nat)
  deriving DecidableEq, Repr

/-- `src/ui.rs`: the current yap UI state (the `stdout` lock is replaced by
returning the queued commands from each operation). -/
structure UiState where
  /-- The lines of the document. -/
  document : List Line
  /-- The length of the longest line in `document`. -/
  max_line_len : Nat
  /-- The offset into `document`. -/
  offset : Vec2
  /-- Whether or not yap should exit. -/
  should_exit : Bool
  /-- The current size of the terminal. -/
  size : Vec2
  deriving DecidableEq, Repr

namespace UiState

/-- `UiState::new`. -/
def new (size : Vec2) : UiState :=
  { document := [], max_line_len := 0, offset := ⟨0, 0⟩,
    should_exit := false, size := size }

/-- `document_pane_rows`: the range `0..self.size.y - 2` of terminal rows in
the document pane; the subtraction underflows (panics) when `size.y < 2`. -/
def document_pane_rows (st : UiState) : Option NatRange :=
  (checkedSub st.size.y 2).map fun e => ⟨0, e⟩

/-- `document_pane_cols`: the range `0..self.size.x - 1` of terminal columns
in the document pane; the subtraction underflows (panics) when `size.x = 0`. -/
def document_pane_cols (st : UiState) : Option NatRange :=
  (checkedSub st.size.x 1).map fun e => ⟨0, e⟩

/-- `visible_document_rows`: the range
`self.offset.y..min(self.offset.y + self.size.y - 2, self.document.len())`.
In Rust the expression parses as `(offset.y + size.y) - 2`, so the
subtraction underflows exactly when `offset.y + size.y < 2`. -/
def visible_document_rows (st : UiState) : Option NatRange :=
  (checkedSub (st.offset.y + st.size.y) 2).map fun e =>
    ⟨st.offset.y, min e st.document.length⟩

/-- `UiState::queue_line`: like `DocumentView::queue_line`, except that the
second `nth` receives `self.document_pane_cols().len()`, i.e. `size.x - 1`,
which is computed (and can panic) only after a start character was found. -/
def queue_line (st : UiState) (index : Nat) : Option (List Cmd) :=
  (st.document[index]?).bind fun line =>
    match (charIndices line)[st.offset.x]? with
    | none => some [Cmd.clearUntilNewLine, Cmd.moveToNextLine 1]
    | some s =>
      (st.document_pane_cols).bind fun cols =>
        (sliceBytes line s (qlStop line st.offset.x cols.len)).map fun cs =>
          [Cmd.print cs, Cmd.clearUntilNewLine, Cmd.moveToNextLine 1]

/-- The body of `redraw_document`'s `for y in self.visible_document_rows()`
loop. -/
def queueLines (st : UiState) : List Nat → Option (List Cmd)
  | [] => some []
  | y :: ys =>
    (st.queue_line y).bind fun out => (st.queueLines ys).map fun rest => out ++ rest

/-- `UiState::redraw_document`: move to the top left, queue every visible
line, then flush. -/
def redraw_document (st : UiState) : Option (List Cmd) :=
  (st.visible_document_rows).bind fun rows =>
    (st.queueLines rows.toList).map fun outs =>
      Cmd.moveTo 0 0 :: outs ++ [Cmd.flush]

/-- `UiState::draw_status_bar`: move to the bottom row (`size.y - 1`, which
panics when `size.y = 0`), print the hint line in reverse video.  `execute!`
flushes. -/
def draw_status_bar (st : UiState) : Option (List Cmd) :=
  (checkedSub st.size.y 1).map fun row =>
    [Cmd.moveTo 0 row, Cmd.setAttrReverse,
     Cmd.print "[yap] q to exit, jk to scroll".toList,
     Cmd.setAttrNoReverse, Cmd.flush]

/-- `UiState::handle_line`: remember the line, then draw it immediately if
its index lies in the document pane rows (note: the source compares the
document index against the range `0..size.y - 2` of *screen* rows, not
against the visible window shifted by `offset.y`). -/
def handle_line (st : UiState) (line : Line) : Option (UiState × List Cmd) :=
  let index := st.document.length
  let st2 : UiState :=
    { st with max_line_len := max st.max_line_len line.length,
              document := st.document ++ [line] }
  (st2.document_pane_rows).bind fun pane =>
    if pane.contains index then
      (st2.queue_line index).map fun out => (st2, out ++ [Cmd.flush])
    else some (st2, [])

/-- `UiState::scroll_down`: scroll down by one line if there is at least one
more line of text off-screen; the guard compares against
`document_pane_rows().len()`, i.e. `size.y - 2`. -/
def scroll_down (st : UiState) : Option (UiState × List Cmd) :=
  (st.document_pane_rows).bind fun pane =>
    if st.document.length > st.offset.y + pane.len then
      let st2 := { st with offset := { st.offset with y := st.offset.y + 1 } }
      st2.redraw_document.map fun out => (st2, out)
    else some (st, [])

/-- `UiState::scroll_up`: scroll up by one line if we are not at the top of
the document. -/
def scroll_up (st : UiState) : Option (UiState × List Cmd) :=
  if st.offset.y > 0 then
    let st2 := { st with offset := { st.offset with y := st.offset.y - 1 } }
    st2.redraw_document.map fun out => (st2, out)
  else some (st, [])

/-- `UiState::handle_resize`: replace the size, clear the whole screen, then
redraw the status bar and the document. -/
def handle_resize (st : UiState) (new_size : Vec2) : Option (UiState × List Cmd) :=
  let st2 := { st with size := new_size }
  (st2.draw_status_bar).bind fun sb =>
    st2.redraw_document.map fun rd =>
      (st2, [Cmd.clearAll, Cmd.flush] ++ sb ++ rd)

/-- `UiState::handle_event`: `None` sets the exit flag; `Mouse` hits
`unreachable!` (a panic, modelled by `none`); `Resize` re-sizes; of the key
codes only `q`/`Q` (exit), `j` (scroll down) and `k` (scroll up) are
recognised, every other key falls into the silent `_ => {}` arm. -/
def handle_event (st : UiState) (event : Option Event) : Option (UiState × List Cmd) :=
  match event with
  | none => some ({ st with should_exit := true }, [])
  | some Event.mouse => none
  | some (Event.resize x y) => st.handle_resize ⟨x, y⟩
  | some (Event.key code) =>
    match code with
    | KeyCode.char c =>
      if c = 'q' ∨ c = 'Q' then some ({ st with should_exit := true }, [])
      else if c = 'j' then st.scroll_down
      else if c = 'k' then st.scroll_up
      else some (st, [])
    | _ => some (st, [])

end UiState

/-- The navigation operations of `DocumentView`, for quantifying over
sequences of navigation operations. -/
inductive NavOp where
  | panLeft
  | panRight
  | scrollUp
  | scrollDown
  | prevPage
  | nextPage
  deriving DecidableEq, Repr

/-- Dispatch one navigation operation on a view. -/
def applyNav : NavOp → DocumentView → Option (DocumentView × List Cmd)
  | NavOp.panLeft, v => v.pan_left
  | NavOp.panRight, v => v.pan_right
  | NavOp.scrollUp, v => v.scroll_up
  | NavOp.scrollDown, v => v.scroll_down
  | NavOp.prevPage, v => v.prev_page
  | NavOp.nextPage, v => v.next_page

/-- Run a sequence of navigation operations, threading the view state. -/
def runNav : List NavOp → DocumentView → Option DocumentView
  | [], v => some v
  | op :: rest, v => (applyNav op v).bind fun r => runNav rest r.1

/-- The offset-bound invariant of the spec, with `usize` truncated
subtraction standing for `max (0, a - b)`. -/
def OffsetInv (v : DocumentView) : Prop :=
  v.offset.y ≤ v.document.len - v.size.y ∧
  v.offset.x ≤ v.document.max_line_len - v.size.x

/-! ## Concrete states used by witnesses and counterexamples -/

/-- A one-character ASCII line. -/
def aLine : Line := ['a']

/-- A view with `offset.y = 5`, `size.y = 10` over an 11-line document:
index 10 is the most recently stored line. -/
def c2v : DocumentView := ⟨⟨List.replicate 11 aLine, 1⟩, ⟨0, 5⟩, ⟨8, 10⟩⟩

/-- A `UiState` with `offset.y = 5`, `size.y = 10` and a 10-line document:
the next pushed line gets index 10, which lies in the visible window
`[5, 15)` of the claim. -/
def c2st : UiState := ⟨List.replicate 10 aLine, 1, ⟨0, 5⟩, false, ⟨8, 10⟩⟩

/-- A view of an 8-character multi-byte line with `offset.x = 2`,
`size.x = 3`. -/
def c3v : DocumentView :=
  ⟨⟨[['α', 'β', 'γ', 'δ', 'ε', 'ζ', 'η', 'θ']], 8⟩, ⟨2, 0⟩, ⟨3, 1⟩⟩

/-- A `UiState` over an 8-character ASCII line with `offset.x = 2` and
terminal width `size.x = 3`. -/
def c3st : UiState :=
  ⟨[['a', 'b', 'c', 'd', 'e', 'f', 'g', 'h']], 8, ⟨2, 0⟩, false, ⟨3, 4⟩⟩

/-- A 7-line document viewed with `size.y = 4` at the top: `next_page` can
advance by a full half-page (`7 ≥ 4 + 0 + 2`). -/
def c4v : DocumentView := ⟨⟨List.replicate 7 aLine, 1⟩, ⟨0, 0⟩, ⟨1, 4⟩⟩

/-- A `UiState` on an 80×24 terminal whose 30-line document extends past the
screen, so a page-down key would have content to move to. -/
def c5st : UiState := ⟨List.replicate 30 aLine, 1, ⟨0, 0⟩, false, ⟨80, 24⟩⟩

/-- A view of a 1-character line panned right past its end
(`offset.x = 2`). -/
def c6v : DocumentView := ⟨⟨[aLine], 1⟩, ⟨2, 0⟩, ⟨3, 1⟩⟩

/-- A `UiState` with 9 document lines and `size.y = 10`: the document is
shorter than `offset.y + size.y` but longer than the document pane
(`size.y - 2 = 8` rows). -/
def c7st : UiState := ⟨List.replicate 9 aLine, 1, ⟨0, 0⟩, false, ⟨5, 10⟩⟩

/-- A `UiState` on a degenerate 0×0 terminal at the top of an empty
document. -/
def c10st : UiState := ⟨[], 0, ⟨0, 0⟩, false, ⟨0, 0⟩⟩

/-! ## Byte-level facts about lines and `char_indices` -/

theorem Vec2.ext {a b : Vec2} (hx : a.x = b.x) (hy : a.y = b.y) : a = b := by
  cases a
  cases b
  cases hx
  cases hy
  rfl

theorem utf8Len_nil : utf8Len [] = 0 := rfl

theorem utf8Len_cons (c : Char) (cs : Line) :
    utf8Len (c :: cs) = c.utf8Size + utf8Len cs := by
  simp [utf8Len]

theorem utf8Len_append (a b : Line) :
    utf8Len (a ++ b) = utf8Len a + utf8Len b := by
  simp [utf8Len]

theorem length_charIndicesAux (b : Nat) (l : Line) :
    (charIndicesAux b l).length = l.length := by
  induction l generalizing b with
  | nil => rfl
  | cons c cs ih => simp [charIndicesAux, ih]

theorem length_charIndices (l : Line) : (charIndices l).length = l.length :=
  length_charIndicesAux 0 l

theorem charIndicesAux_getElem? (l : Line) (b i : Nat) (h : i < l.length) :
    (charIndicesAux b l)[i]? = some (b + utf8Len (l.take i)) := by
  induction l generalizing b i with
  | nil => simp at h
  | cons c cs ih =>
    cases i with
    | zero => simp [charIndicesAux, utf8Len]
    | succ i =>
      simp only [charIndicesAux, List.getElem?_cons_succ]
      rw [ih (b + c.utf8Size) i (by simpa using h)]
      simp [List.take_succ_cons, utf8Len_cons]
      omega

theorem charIndices_getElem? (l : Line) (i : Nat) (h : i < l.length) :
    (charIndices l)[i]? = some (utf8Len (l.take i)) := by
  rw [charIndices, charIndicesAux_getElem? l 0 i h, Nat.zero_add]

theorem charIndices_getElem?_none (l : Line) (i : Nat) (h : l.length ≤ i) :
    (charIndices l)[i]? = none :=
  List.getElem?_eq_none (by rwa [length_charIndices])

theorem utf8Len_take_eq_of_le (l : Line) (n : Nat) (h : l.length ≤ n) :
    utf8Len (l.take n) = utf8Len l := by
  rw [List.take_of_length_le h]

theorem utf8Len_take_mono (l : Line) {a b : Nat} (h : a ≤ b) :
    utf8Len (l.take a) ≤ utf8Len (l.take b) := by
  have : l.take b = l.take a ++ (l.drop a).take (b - a) := by
    rw [← List.take_add]
    congr 1
    omega
  rw [this, utf8Len_append]
  omega

theorem utf8Len_take_le (l : Line) (n : Nat) :
    utf8Len (l.take n) ≤ utf8Len l := by
  conv_rhs => rw [← List.take_append_drop n l]
  rw [utf8Len_append]
  omega

theorem dropBytes_cons_pos (c : Char) (cs : Line) (n : Nat) (h : 0 < n) :
    dropBytes (c :: cs) n =
      if c.utf8Size ≤ n then dropBytes cs (n - c.utf8Size) else none := by
  cases n with
  | zero => omega
  | succ n => rfl

theorem takeBytes_cons_pos (c : Char) (cs : Line) (n : Nat) (h : 0 < n) :
    takeBytes (c :: cs) n =
      if c.utf8Size ≤ n then (takeBytes cs (n - c.utf8Size)).map (c :: ·)
      else none := by
  cases n with
  | zero => omega
  | succ n => rfl

theorem dropBytes_utf8Len_take (l : Line) (a : Nat) :
    dropBytes l (utf8Len (l.take a)) = some (l.drop a) := by
  induction l generalizing a with
  | nil => simp [utf8Len, dropBytes]
  | cons c cs ih =>
    cases a with
    | zero => simp [utf8Len, dropBytes]
    | succ a =>
      have hpos : 0 < c.utf8Size := Char.utf8Size_pos c
      rw [List.take_succ_cons, utf8Len_cons,
        dropBytes_cons_pos c cs _ (by omega),
        if_pos (by omega)]
      simpa using ih a

theorem takeBytes_utf8Len_take (l : Line) (a : Nat) :
    takeBytes l (utf8Len (l.take a)) = some (l.take a) := by
  induction l generalizing a with
  | nil => simp [utf8Len, takeBytes]
  | cons c cs ih =>
    cases a with
    | zero => simp [utf8Len, takeBytes]
    | succ a =>
      have hpos : 0 < c.utf8Size := Char.utf8Size_pos c
      rw [List.take_succ_cons, utf8Len_cons,
        takeBytes_cons_pos c cs _ (by omega),
        if_pos (by omega)]
      simp only [Nat.add_sub_cancel_left, ih a, Option.map_some]
      rfl

theorem utf8Len_take_sub (l : Line) {a b : Nat} (h : a ≤ b) :
    utf8Len (l.take b) - utf8Len (l.take a) = utf8Len ((l.drop a).take (b - a)) := by
  have hsplit : l.take b = l.take a ++ (l.drop a).take (b - a) := by
    rw [← List.take_add]
    congr 1
    omega
  rw [hsplit, utf8Len_append]
  omega

/-- Slicing a line between the byte offsets of character positions `a ≤ b`
succeeds and yields exactly the codepoint substring from character `a`
(inclusive) to character `b` (exclusive). -/
theorem sliceBytes_take (l : Line) {a b : Nat} (h : a ≤ b) :
    sliceBytes l (utf8Len (l.take a)) (utf8Len (l.take b)) =
      some ((l.drop a).take (b - a)) := by
  rw [sliceBytes, if_pos (utf8Len_take_mono l h), dropBytes_utf8Len_take,
    Option.some_bind, utf8Len_take_sub l h]
  have := takeBytes_utf8Len_take (l.drop a) (b - a)
  simpa using this

/-- The stop byte offset used by `queue_line` is the byte offset of the
prefix of `offx + 1 + k` characters (the whole line when it is shorter). -/
theorem qlStop_eq (l : Line) (offx k : Nat) :
    qlStop l offx k = utf8Len (l.take (offx + 1 + k)) := by
  rw [qlStop, List.getElem?_drop]
  rcases Nat.lt_or_ge (offx + 1 + k) l.length with h | h
  · rw [charIndices_getElem? l _ h]
    rfl
  · rw [charIndices_getElem?_none l _ h, utf8Len_take_eq_of_le l _ h]
    rfl

/-- `b` is a UTF-8 character boundary of `l`: the byte offset of some
character, or the total byte length. -/
def isCharBoundary (l : Line) (b : Nat) : Prop :=
  b ∈ charIndices l ∨ b = utf8Len l

theorem isCharBoundary_take (l : Line) (n : Nat) :
    isCharBoundary l (utf8Len (l.take n)) := by
  rcases Nat.lt_or_ge n l.length with h | h
  · exact Or.inl (List.getElem?_mem (charIndices_getElem? l n h))
  · exact Or.inr (utf8Len_take_eq_of_le l n h)

/-! ## Ranges -/

theorem NatRange.mem_toList {r : NatRange} {y : Nat} (h : y ∈ r.toList) :
    r.start ≤ y ∧ y < r.stop := by
  rcases List.mem_map.mp h with ⟨j, hj, rfl⟩
  have := List.mem_range.mp hj
  unfold NatRange.len at this
  omega

/-! ## Characterizing the two `queue_line` functions -/

namespace DocumentView

theorem queue_line_short (v : DocumentView) {i : Nat} {line : Line}
    (h : v.document.index? i = some line) (hx : line.length ≤ v.offset.x) :
    v.queue_line i = some [Cmd.clearUntilNewLine, Cmd.moveToNextLine 1] := by
  rw [queue_line, h, Option.some_bind, charIndices_getElem?_none line _ hx]

theorem queue_line_long (v : DocumentView) {i : Nat} {line : Line}
    (h : v.document.index? i = some line) (hx : v.offset.x < line.length) :
    v.queue_line i =
      some [Cmd.print ((line.drop v.offset.x).take (v.size.x + 1)),
            Cmd.clearUntilNewLine, Cmd.moveToNextLine 1] := by
  have hslice := sliceBytes_take line
    (a := v.offset.x) (b := v.offset.x + 1 + v.size.x) (by omega)
  have harith : v.offset.x + 1 + v.size.x - v.offset.x = v.size.x + 1 := by omega
  rw [harith] at hslice
  rw [queue_line, h, Option.some_bind, charIndices_getElem? line _ hx]
  simp only [qlStop_eq]
  simp [hslice]

theorem queue_line_isSome (v : DocumentView) {i : Nat}
    (hi : i < v.document.len) : (v.queue_line i).isSome := by
  have h : v.document.index? i = some v.document.lines[i] :=
    List.getElem?_eq_getElem hi
  rcases le_or_lt v.document.lines[i].length v.offset.x with hx | hx
  · rw [queue_line_short v h hx]; rfl
  · rw [queue_line_long v h hx]; rfl

theorem queueLines_isSome (v : DocumentView) (ys : List Nat)
    (h : ∀ y ∈ ys, y < v.document.len) : (v.queueLines ys).isSome := by
  induction ys with
  | nil => rfl
  | cons y ys ih =>
    have h1 := queue_line_isSome v (h y (by simp))
    rcases Option.isSome_iff_exists.mp h1 with ⟨out, hout⟩
    have h2 := ih (fun z hz => h z (by simp [hz]))
    rcases Option.isSome_iff_exists.mp h2 with ⟨rest, hrest⟩
    simp [queueLines, hout, hrest]

/-- `DocumentView::redraw` never panics: every index it draws is a valid
document line. -/
theorem redraw_isSome (v : DocumentView) : v.redraw.isSome := by
  have h := queueLines_isSome v v.visible_lines.toList (fun y hy => by
    have := NatRange.mem_toList hy
    unfold visible_lines at this
    simp at this
    omega)
  rcases Option.isSome_iff_exists.mp h with ⟨outs, houts⟩
  simp [redraw, houts]

end DocumentView

namespace UiState

theorem ui_queue_line_short (st : UiState) {i : Nat} {line : Line}
    (h : st.document[i]? = some line) (hx : line.length ≤ st.offset.x) :
    st.queue_line i = some [Cmd.clearUntilNewLine, Cmd.moveToNextLine 1] := by
  rw [queue_line, h, Option.some_bind, charIndices_getElem?_none line _ hx]

theorem document_pane_cols_eq (st : UiState) (hsx : 1 ≤ st.size.x) :
    st.document_pane_cols = some ⟨0, st.size.x - 1⟩ := by
  rw [document_pane_cols, checkedSub, if_pos hsx]
  rfl

theorem ui_queue_line_long (st : UiState) {i : Nat} {line : Line}
    (h : st.document[i]? = some line) (hx : st.offset.x < line.length)
    (hsx : 1 ≤ st.size.x) :
    st.queue_line i =
      some [Cmd.print ((line.drop st.offset.x).take st.size.x),
            Cmd.clearUntilNewLine, Cmd.moveToNextLine 1] := by
  have hslice := sliceBytes_take line
    (a := st.offset.x) (b := st.offset.x + 1 + (st.size.x - 1)) (by omega)
  have harith : st.offset.x + 1 + (st.size.x - 1) - st.offset.x = st.size.x := by
    omega
  rw [harith] at hslice
  rw [queue_line, h, Option.some_bind, charIndices_getElem? line _ hx,
    document_pane_cols_eq st hsx]
  have hlen : NatRange.len ⟨0, st.size.x - 1⟩ = st.size.x - 1 := rfl
  simp only [Option.some_bind, hlen, qlStop_eq]
  simp [hslice]

/-- `UiState::queue_line` with `size.x = 0` panics on any line that reaches
the slicing path (the `size.x - 1` underflow in `document_pane_cols`). -/
theorem queue_line_underflow (st : UiState) {i : Nat} {line : Line}
    (h : st.document[i]? = some line) (hx : st.offset.x < line.length)
    (hsx : st.size.x = 0) : st.queue_line i = none := by
  rw [queue_line, h, Option.some_bind, charIndices_getElem? line _ hx]
  show (st.document_pane_cols.bind _) = none
  rw [document_pane_cols, checkedSub, if_neg (by omega)]
  rfl

theorem ui_queue_line_isSome (st : UiState) {i : Nat}
    (hi : i < st.document.length) (hsx : 1 ≤ st.size.x) :
    (st.queue_line i).isSome := by
  have h : st.document[i]? = some st.document[i] := List.getElem?_eq_getElem hi
  rcases le_or_lt st.document[i].length st.offset.x with hx | hx
  · rw [ui_queue_line_short st h hx]; rfl
  · rw [ui_queue_line_long st h hx hsx]; rfl

theorem ui_queueLines_isSome (st : UiState) (ys : List Nat)
    (h : ∀ y ∈ ys, y < st.document.length) (hsx : 1 ≤ st.size.x) :
    (st.queueLines ys).isSome := by
  induction ys with
  | nil => rfl
  | cons y ys ih =>
    have h1 := ui_queue_line_isSome st (h y (by simp)) hsx
    rcases Option.isSome_iff_exists.mp h1 with ⟨out, hout⟩
    have h2 := ih (fun z hz => h z (by simp [hz]))
    rcases Option.isSome_iff_exists.mp h2 with ⟨rest, hrest⟩
    simp [queueLines, hout, hrest]

/-- `UiState::redraw_document` never panics when the terminal has at least
two rows and one column. -/
theorem redraw_document_isSome (st : UiState) (hsy : 2 ≤ st.size.y)
    (hsx : 1 ≤ st.size.x) : st.redraw_document.isSome := by
  have hrows : st.visible_document_rows =
      some ⟨st.offset.y, min (st.offset.y + st.size.y - 2) st.document.length⟩ := by
    rw [visible_document_rows, checkedSub, if_pos (by omega)]
    rfl
  have h := ui_queueLines_isSome st
    (NatRange.toList ⟨st.offset.y, min (st.offset.y + st.size.y - 2) st.document.length⟩)
    (fun y hy => by
      have := NatRange.mem_toList hy
      simp at this
      omega) hsx
  rcases Option.isSome_iff_exists.mp h with ⟨outs, houts⟩
  simp [redraw_document, hrows, houts]

end UiState

/-! ## Case analyses of the `DocumentView` navigation operations -/

namespace DocumentView

theorem redrawStep (v2 : DocumentView) :
    ∃ out, v2.redraw.map (fun o => (v2, o)) = some (v2, out) := by
  obtain ⟨out, hout⟩ := Option.isSome_iff_exists.mp (redraw_isSome v2)
  exact ⟨out, by rw [hout]; rfl⟩

theorem pan_left_cases (v : DocumentView) :
    ∃ r, v.pan_left = some r ∧ r.1.document = v.document ∧ r.1.size = v.size ∧
      r.1.offset.y = v.offset.y ∧
      ((0 < v.offset.x ∧ r.1.offset.x = v.offset.x - 1) ∨
       (v.offset.x = 0 ∧ r = (v, []))) := by
  by_cases hg : v.offset.x > 0
  · obtain ⟨out, hout⟩ :=
      redrawStep { v with offset := { v.offset with x := v.offset.x - 1 } }
    rw [pan_left, if_pos hg]
    exact ⟨_, hout, rfl, rfl, rfl, Or.inl ⟨hg, rfl⟩⟩
  · rw [pan_left, if_neg hg]
    exact ⟨(v, []), rfl, rfl, rfl, rfl, Or.inr ⟨by omega, rfl⟩⟩

theorem pan_right_cases (v : DocumentView) :
    ∃ r, v.pan_right = some r ∧ r.1.document = v.document ∧ r.1.size = v.size ∧
      r.1.offset.y = v.offset.y ∧
      ((v.document.max_line_len > v.offset.x + v.size.x ∧
          r.1.offset.x = v.offset.x + 1) ∨
       (v.document.max_line_len ≤ v.offset.x + v.size.x ∧ r = (v, []))) := by
  by_cases hg : v.document.max_line_len > v.offset.x + v.size.x
  · obtain ⟨out, hout⟩ :=
      redrawStep { v with offset := { v.offset with x := v.offset.x + 1 } }
    rw [pan_right, if_pos hg]
    exact ⟨_, hout, rfl, rfl, rfl, Or.inl ⟨hg, rfl⟩⟩
  · rw [pan_right, if_neg hg]
    exact ⟨(v, []), rfl, rfl, rfl, rfl, Or.inr ⟨by omega, rfl⟩⟩

theorem scroll_up_cases (v : DocumentView) :
    ∃ r, v.scroll_up = some r ∧ r.1.document = v.document ∧ r.1.size = v.size ∧
      r.1.offset.x = v.offset.x ∧
      ((0 < v.offset.y ∧ r.1.offset.y = v.offset.y - 1) ∨
       (v.offset.y = 0 ∧ r = (v, []))) := by
  by_cases hg : v.offset.y > 0
  · obtain ⟨out, hout⟩ :=
      redrawStep { v with offset := { v.offset with y := v.offset.y - 1 } }
    rw [scroll_up, if_pos hg]
    exact ⟨_, hout, rfl, rfl, rfl, Or.inl ⟨hg, rfl⟩⟩
  · rw [scroll_up, if_neg hg]
    exact ⟨(v, []), rfl, rfl, rfl, rfl, Or.inr ⟨by omega, rfl⟩⟩

theorem scroll_down_cases (v : DocumentView) :
    ∃ r, v.scroll_down = some r ∧ r.1.document = v.document ∧ r.1.size = v.size ∧
      r.1.offset.x = v.offset.x ∧
      ((v.document.len > v.offset.y + v.size.y ∧
          r.1.offset.y = v.offset.y + 1) ∨
       (v.document.len ≤ v.offset.y + v.size.y ∧ r = (v, []))) := by
  by_cases hg : v.document.len > v.offset.y + v.size.y
  · obtain ⟨out, hout⟩ :=
      redrawStep { v with offset := { v.offset with y := v.offset.y + 1 } }
    rw [scroll_down, if_pos hg]
    exact ⟨_, hout, rfl, rfl, rfl, Or.inl ⟨hg, rfl⟩⟩
  · rw [scroll_down, if_neg hg]
    exact ⟨(v, []), rfl, rfl, rfl, rfl, Or.inr ⟨by omega, rfl⟩⟩

theorem prev_page_cases (v : DocumentView) :
    ∃ r, v.prev_page = some r ∧ r.1.document = v.document ∧ r.1.size = v.size ∧
      r.1.offset.x = v.offset.x ∧
      ((0 < v.offset.y ∧
          r.1.offset.y = v.offset.y - min (v.size.y / 2) v.offset.y) ∨
       (v.offset.y = 0 ∧ r = (v, []))) := by
  by_cases hg : v.offset.y > 0
  · obtain ⟨out, hout⟩ := redrawStep
      { v with offset :=
          { v.offset with y := v.offset.y - min (v.size.y / 2) v.offset.y } }
    rw [prev_page]
    simp only [if_pos hg]
    exact ⟨_, hout, rfl, rfl, rfl, Or.inl ⟨hg, rfl⟩⟩
  · rw [prev_page]
    simp only [if_neg hg]
    exact ⟨(v, []), rfl, rfl, rfl, rfl, Or.inr ⟨by omega, rfl⟩⟩

theorem next_page_cases (v : DocumentView) :
    ∃ r, v.next_page = some r ∧ r.1.document = v.document ∧ r.1.size = v.size ∧
      r.1.offset.x = v.offset.x ∧
      ((v.document.len ≥ v.size.y + v.offset.y + v.size.y / 2 ∧
          r.1.offset.y = v.offset.y + v.size.y / 2) ∨
       (v.document.len < v.size.y + v.offset.y + v.size.y / 2 ∧
          v.document.len > v.size.y + v.offset.y ∧
          r.1.offset.y = v.document.len - v.size.y) ∨
       (v.document.len < v.size.y + v.offset.y + v.size.y / 2 ∧
          v.document.len ≤ v.size.y + v.offset.y ∧ r = (v, []))) := by
  by_cases hg1 : v.document.len ≥ v.size.y + v.offset.y + v.size.y / 2
  · obtain ⟨out, hout⟩ :=
      redrawStep { v with offset := { v.offset with y := v.offset.y + v.size.y / 2 } }
    rw [next_page]
    simp only [if_pos hg1]
    exact ⟨_, hout, rfl, rfl, rfl, Or.inl ⟨hg1, rfl⟩⟩
  · by_cases hg2 : v.document.len > v.size.y + v.offset.y
    · obtain ⟨out, hout⟩ := redrawStep
        { v with offset := { v.offset with y := v.document.len - v.size.y } }
      rw [next_page]
      simp only [if_neg hg1, if_pos hg2]
      exact ⟨_, hout, rfl, rfl, rfl, Or.inr (Or.inl ⟨by omega, hg2, rfl⟩)⟩
    · rw [next_page]
      simp only [if_neg hg1, if_neg hg2]
      exact ⟨(v, []), rfl, rfl, rfl, rfl,
        Or.inr (Or.inr ⟨by omega, by omega, rfl⟩)⟩

end DocumentView

/-- Every navigation operation preserves the offset-bound invariant (and
never panics, and never touches the document or the size). -/
theorem applyNav_inv (op : NavOp) (v : DocumentView) (h : OffsetInv v) :
    ∃ r, applyNav op v = some r ∧ OffsetInv r.1 := by
  obtain ⟨hy, hx⟩ := h
  cases op with
  | panLeft =>
    obtain ⟨r, hr, hdoc, hsize, hoy, hcase⟩ := DocumentView.pan_left_cases v
    refine ⟨r, hr, ?_, ?_⟩ <;> rw [hdoc, hsize]
    · rw [hoy]; exact hy
    · rcases hcase with ⟨hg, hox⟩ | ⟨hg, rfl⟩
      · rw [hox]; omega
      · exact hx
  | panRight =>
    obtain ⟨r, hr, hdoc, hsize, hoy, hcase⟩ := DocumentView.pan_right_cases v
    refine ⟨r, hr, ?_, ?_⟩ <;> rw [hdoc, hsize]
    · rw [hoy]; exact hy
    · rcases hcase with ⟨hg, hox⟩ | ⟨hg, rfl⟩
      · rw [hox]; omega
      · exact hx
  | scrollUp =>
    obtain ⟨r, hr, hdoc, hsize, hox, hcase⟩ := DocumentView.scroll_up_cases v
    refine ⟨r, hr, ?_, ?_⟩ <;> rw [hdoc, hsize]
    · rcases hcase with ⟨hg, hoy⟩ | ⟨hg, rfl⟩
      · rw [hoy]; omega
      · exact hy
    · rw [hox]; exact hx
  | scrollDown =>
    obtain ⟨r, hr, hdoc, hsize, hox, hcase⟩ := DocumentView.scroll_down_cases v
    refine ⟨r, hr, ?_, ?_⟩ <;> rw [hdoc, hsize]
    · rcases hcase with ⟨hg, hoy⟩ | ⟨hg, rfl⟩
      · rw [hoy]; omega
      · exact hy
    · rw [hox]; exact hx
  | prevPage =>
    obtain ⟨r, hr, hdoc, hsize, hox, hcase⟩ := DocumentView.prev_page_cases v
    refine ⟨r, hr, ?_, ?_⟩ <;> rw [hdoc, hsize]
    · rcases hcase with ⟨hg, hoy⟩ | ⟨hg, rfl⟩
      · rw [hoy]; omega
      · exact hy
    · rw [hox]; exact hx
  | nextPage =>
    obtain ⟨r, hr, hdoc, hsize, hox, hcase⟩ := DocumentView.next_page_cases v
    refine ⟨r, hr, ?_, ?_⟩ <;> rw [hdoc, hsize]
    · rcases hcase with ⟨hg, hoy⟩ | ⟨hg1, hg2, hoy⟩ | ⟨hg1, hg2, rfl⟩
      · rw [hoy]; omega
      · rw [hoy]
      · exact hy
    · rw [hox]; exact hx

/-- Running any sequence of navigation operations from an invariant state
never panics and ends in an invariant state. -/
theorem runNav_inv (ops : List NavOp) (v : DocumentView) (h : OffsetInv v) :
    ∃ v', runNav ops v = some v' ∧ OffsetInv v' := by
  induction ops generalizing v with
  | nil => exact ⟨v, rfl, h⟩
  | cons op rest ih =>
    obtain ⟨r, hr, hinv⟩ := applyNav_inv op v h
    obtain ⟨v', hv', hinv'⟩ := ih r.1 hinv
    exact ⟨v', by rw [runNav, hr, Option.some_bind, hv'], hinv'⟩

/-! ## Pane geometry and panic behaviour of the `UiState` operations -/

namespace UiState

theorem document_pane_rows_eq (st : UiState) (h : 2 ≤ st.size.y) :
    st.document_pane_rows = some ⟨0, st.size.y - 2⟩ := by
  rw [document_pane_rows, checkedSub, if_pos h]
  rfl

theorem document_pane_rows_none (st : UiState) (h : st.size.y < 2) :
    st.document_pane_rows = none := by
  rw [document_pane_rows, checkedSub, if_neg (by omega)]
  rfl

/-- `UiState::handle_line` characterized: the line is always stored; it is
drawn (followed by a flush) exactly when its index is below `size.y - 2`,
regardless of `offset.y`. -/
theorem handle_line_eq (st : UiState) (line : Line) (hsy : 2 ≤ st.size.y)
    (hsx : 1 ≤ st.size.x) :
    ∃ st2 out, st.handle_line line = some (st2, out) ∧
      st2 = { st with max_line_len := max st.max_line_len line.length,
                      document := st.document ++ [line] } ∧
      (out ≠ [] ↔ st.document.length < st.size.y - 2) := by
  have hpane := document_pane_rows_eq
    { st with max_line_len := max st.max_line_len line.length,
              document := st.document ++ [line] } hsy
  rw [handle_line, hpane, Option.some_bind]
  by_cases hc : st.document.length < st.size.y - 2
  · rw [if_pos (show NatRange.contains ⟨0, st.size.y - 2⟩ st.document.length from
      ⟨Nat.zero_le _, hc⟩)]
    have hq := ui_queue_line_isSome
      { st with max_line_len := max st.max_line_len line.length,
                document := st.document ++ [line] }
      (i := st.document.length) (by simp) hsx
    obtain ⟨out, hout⟩ := Option.isSome_iff_exists.mp hq
    rw [hout]
    exact ⟨_, out ++ [Cmd.flush], rfl, rfl, by simp [hc]⟩
  · rw [if_neg (show ¬ NatRange.contains ⟨0, st.size.y - 2⟩ st.document.length from
      fun hcon => hc hcon.2)]
    exact ⟨_, [], rfl, rfl, by simp [hc]⟩

/-- `UiState::handle_line` always panics when `size.y < 2` (the
`size.y - 2` underflow in `document_pane_rows`). -/
theorem handle_line_underflow (st : UiState) (line : Line)
    (hsy : st.size.y < 2) : st.handle_line line = none := by
  have hpane := document_pane_rows_none
    { st with max_line_len := max st.max_line_len line.length,
              document := st.document ++ [line] } hsy
  rw [handle_line, hpane]
  rfl

/-- `UiState::scroll_down` never panics on a terminal with at least two rows
and one column. -/
theorem scroll_down_isSome (st : UiState) (hsy : 2 ≤ st.size.y)
    (hsx : 1 ≤ st.size.x) : st.scroll_down.isSome := by
  have hpane := document_pane_rows_eq st hsy
  by_cases hg : st.document.length > st.offset.y + (st.size.y - 2)
  · have h := redraw_document_isSome
      { st with offset := { st.offset with y := st.offset.y + 1 } } hsy hsx
    obtain ⟨out, hout⟩ := Option.isSome_iff_exists.mp h
    simp [scroll_down, hpane, NatRange.len, hg, hout]
  · simp [scroll_down, hpane, NatRange.len, hg]

/-- `UiState::scroll_down` always panics when `size.y < 2` (its guard
evaluates `document_pane_rows`). -/
theorem scroll_down_underflow (st : UiState) (hsy : st.size.y < 2) :
    st.scroll_down = none := by
  rw [scroll_down, document_pane_rows_none st hsy]
  rfl

/-- `UiState::scroll_up` never panics on a terminal with at least two rows
and one column. -/
theorem scroll_up_isSome (st : UiState) (hsy : 2 ≤ st.size.y)
    (hsx : 1 ≤ st.size.x) : st.scroll_up.isSome := by
  by_cases hg : st.offset.y > 0
  · have h := redraw_document_isSome
      { st with offset := { st.offset with y := st.offset.y - 1 } } hsy hsx
    obtain ⟨out, hout⟩ := Option.isSome_iff_exists.mp h
    simp [scroll_up, hg, hout]
  · simp [scroll_up, hg]

/-- `UiState::handle_resize` never panics when the new size has at least two
rows and one column. -/
theorem handle_resize_isSome (st : UiState) (ns : Vec2) (hsy : 2 ≤ ns.y)
    (hsx : 1 ≤ ns.x) : (st.handle_resize ns).isSome := by
  have hsb : ({ st with size := ns } : UiState).draw_status_bar =
      some [Cmd.moveTo 0 (ns.y - 1), Cmd.setAttrReverse,
            Cmd.print "[yap] q to exit, jk to scroll".toList,
            Cmd.setAttrNoReverse, Cmd.flush] := by
    rw [draw_status_bar, checkedSub, if_pos (show 1 ≤ ns.y by omega)]
    rfl
  have h := redraw_document_isSome { st with size := ns } hsy hsx
  obtain ⟨out, hout⟩ := Option.isSome_iff_exists.mp h
  simp [handle_resize, hsb, hout]

/-- `UiState::handle_resize` to a zero-row terminal panics in
`draw_status_bar` (`size.y - 1` underflows). -/
theorem handle_resize_zero_rows (st : UiState) (ns : Vec2) (hy : ns.y = 0) :
    st.handle_resize ns = none := by
  have hsb : ({ st with size := ns } : UiState).draw_status_bar = none := by
    rw [draw_status_bar, checkedSub, if_neg (show ¬ 1 ≤ ns.y by omega)]
    rfl
  simp [handle_resize, hsb]

/-- `UiState::handle_resize` to a one-row terminal panics in
`redraw_document` when the view is at the top (`offset.y + size.y - 2`
underflows). -/
theorem handle_resize_one_row (st : UiState) (ns : Vec2) (hy : ns.y = 1)
    (hoff : st.offset.y = 0) : st.handle_resize ns = none := by
  have hsb : ({ st with size := ns } : UiState).draw_status_bar =
      some [Cmd.moveTo 0 (ns.y - 1), Cmd.setAttrReverse,
            Cmd.print "[yap] q to exit, jk to scroll".toList,
            Cmd.setAttrNoReverse, Cmd.flush] := by
    rw [draw_status_bar, checkedSub, if_pos (show 1 ≤ ns.y by omega)]
    rfl
  have hrd : ({ st with size := ns } : UiState).redraw_document = none := by
    rw [redraw_document, visible_document_rows, checkedSub,
      if_neg (show ¬ 2 ≤ st.offset.y + ns.y by omega)]
    rfl
  simp [handle_resize, hsb, hrd]

end UiState

/-! ## The claims -/

/-- **C1.**  For every sequence of navigation operations (`pan_left`,
`pan_right`, `scroll_up`, `scroll_down`, `prev_page`, `next_page`) applied to
a `DocumentView` starting from offset `(0, 0)`, no operation panics, and
after each completed operation (i.e. after running any such sequence, hence
after every prefix of any longer sequence) the offset satisfies
`0 ≤ offset.y ≤ max 0 (document.len - size.y)` and
`0 ≤ offset.x ≤ max 0 (document.max_line_len - size.x)`; truncated `Nat`
subtraction `a - b` is exactly `max 0 (a - b)` of the claim. -/
theorem C1_offset_bound_invariant (ops : List NavOp) (d : FileDocument)
    (size : Vec2) :
    ∃ v', runNav ops (DocumentView.new d size) = some v' ∧
      0 ≤ v'.offset.y ∧ v'.offset.y ≤ v'.document.len - v'.size.y ∧
      0 ≤ v'.offset.x ∧ v'.offset.x ≤ v'.document.max_line_len - v'.size.x := by
  obtain ⟨v', hv', hinv⟩ := runNav_inv ops (DocumentView.new d size)
    ⟨Nat.zero_le _, Nat.zero_le _⟩
  exact ⟨v', hv', Nat.zero_le _, hinv.1, Nat.zero_le _, hinv.2⟩

/-- **C4.**  `DocumentView::next_page` with `step = size.y / 2` behaves in
exactly three cases: if `document.len ≥ size.y + offset.y + step` then
`offset.y` increases by `step`; else if `document.len > size.y + offset.y`
then `offset.y` is set to exactly `document.len - size.y`; otherwise the
state is returned unchanged with no output.  In particular, for every
document with `document.len ≤ size.y`, `next_page` leaves the offset
unchanged. -/
theorem C4_next_page_three_cases (v : DocumentView) :
    (v.document.len ≥ v.size.y + v.offset.y + v.size.y / 2 →
      (v.next_page.map fun r => r.1.offset) =
        some ⟨v.offset.x, v.offset.y + v.size.y / 2⟩) ∧
    (v.document.len < v.size.y + v.offset.y + v.size.y / 2 →
      v.document.len > v.size.y + v.offset.y →
      (v.next_page.map fun r => r.1.offset) =
        some ⟨v.offset.x, v.document.len - v.size.y⟩) ∧
    (v.document.len < v.size.y + v.offset.y + v.size.y / 2 →
      v.document.len ≤ v.size.y + v.offset.y →
      v.next_page = some (v, [])) ∧
    (v.document.len ≤ v.size.y →
      (v.next_page.map fun r => r.1.offset) = some v.offset) := by
  obtain ⟨r, hr, hdoc, hsize, hox, hcase⟩ := DocumentView.next_page_cases v
  refine ⟨?_, ?_, ?_, ?_⟩
  · intro h1
    rcases hcase with ⟨hg, hoy⟩ | ⟨hg1, hg2, hoy⟩ | ⟨hg1, hg2, hre⟩
    · rw [hr]
      exact congrArg some (Vec2.ext hox hoy)
    · omega
    · omega
  · intro h1 h2
    rcases hcase with ⟨hg, hoy⟩ | ⟨hg1, hg2, hoy⟩ | ⟨hg1, hg2, hre⟩
    · omega
    · rw [hr]
      exact congrArg some (Vec2.ext hox hoy)
    · omega
  · intro h1 h2
    rcases hcase with ⟨hg, hoy⟩ | ⟨hg1, hg2, hoy⟩ | ⟨hg1, hg2, hre⟩
    · omega
    · omega
    · rw [hr, hre]
  · intro hlen
    rcases hcase with ⟨hg, hoy⟩ | ⟨hg1, hg2, hoy⟩ | ⟨hg1, hg2, hre⟩
    · rw [hr]
      exact congrArg some (Vec2.ext hox (show r.1.offset.y = v.offset.y by omega))
    · omega
    · rw [hr, hre]
      rfl

/-- Witness for **C4**: on a 7-line document with `size.y = 4` at the top,
`next_page` advances the offset by the half page `step = 2`. -/
theorem C4_witness :
    (DocumentView.next_page c4v).map (fun r => r.1.offset) = some ⟨0, 2⟩ :=
  ((C4_next_page_three_cases c4v).1 (by decide)).trans (by decide)

/-- **C7 (amended).**  Every navigation operation whose guard is false is a
no-op: it returns success (`some`), leaves the whole state unchanged and
emits no screen output.  In particular `scroll_up` at `offset.y = 0` (in both
`DocumentView` and `UiState`) and `DocumentView::scroll_down` when
`document.len ≤ offset.y + size.y` are such no-ops.  The amendment:
`UiState::scroll_down` guards against the *document pane* height
`size.y - 2`, so it is a no-op exactly when
`document.len ≤ offset.y + (size.y - 2)`, not when
`document.len ≤ offset.y + size.y` as the claim stated. -/
theorem C7_guard_false_noop :
    (∀ v : DocumentView, v.offset.x = 0 → v.pan_left = some (v, [])) ∧
    (∀ v : DocumentView, v.document.max_line_len ≤ v.offset.x + v.size.x →
      v.pan_right = some (v, [])) ∧
    (∀ v : DocumentView, v.offset.y = 0 → v.scroll_up = some (v, [])) ∧
    (∀ v : DocumentView, v.document.len ≤ v.offset.y + v.size.y →
      v.scroll_down = some (v, [])) ∧
    (∀ v : DocumentView, v.offset.y = 0 → v.prev_page = some (v, [])) ∧
    (∀ v : DocumentView, v.document.len < v.size.y + v.offset.y + v.size.y / 2 →
      v.document.len ≤ v.size.y + v.offset.y → v.next_page = some (v, [])) ∧
    (∀ st : UiState, st.offset.y = 0 → st.scroll_up = some (st, [])) ∧
    (∀ st : UiState, 2 ≤ st.size.y →
      st.document.length ≤ st.offset.y + (st.size.y - 2) →
      st.scroll_down = some (st, [])) := by
  refine ⟨?_, ?_, ?_, ?_, ?_, ?_, ?_, ?_⟩
  · intro v h
    rw [DocumentView.pan_left, if_neg (by omega)]
  · intro v h
    rw [DocumentView.pan_right, if_neg (by omega)]
  · intro v h
    rw [DocumentView.scroll_up, if_neg (by omega)]
  · intro v h
    rw [DocumentView.scroll_down, if_neg (by omega)]
  · intro v h
    simp only [DocumentView.prev_page]
    rw [if_neg (by omega)]
  · intro v h1 h2
    simp only [DocumentView.next_page]
    rw [if_neg (by omega), if_neg (by omega)]
  · intro st h
    rw [UiState.scroll_up, if_neg (by omega)]
  · intro st h2 hle
    have hpane := UiState.document_pane_rows_eq st h2
    rw [UiState.scroll_down, hpane, Option.some_bind,
      if_neg (show ¬ st.document.length >
        st.offset.y + NatRange.len ⟨0, st.size.y - 2⟩ from by
          simp [NatRange.len]
          omega)]

/-- Witness for **C7**: on a fresh 80×24 `UiState` at the top of an empty
document, `scroll_up` is a strict no-op. -/
theorem C7_witness :
    UiState.scroll_up (UiState.new ⟨80, 24⟩) = some (UiState.new ⟨80, 24⟩, []) :=
  C7_guard_false_noop.2.2.2.2.2.2.1 (UiState.new ⟨80, 24⟩) rfl

/-- Counterexample for **C7** as stated: `c7st` has 9 document lines,
`offset.y = 0` and `size.y = 10`, so `document.len ≤ offset.y + size.y` and
the claim says `scroll_down` leaves the offset unchanged and issues no
redraw; the code scrolls to `offset.y = 1` (its guard is
`9 > 0 + (10 - 2)`) and emits a full redraw. -/
theorem C7_counterexample :
    ((UiState.scroll_down c7st).map fun r => r.1.offset.y) = some 1 ∧
    ((UiState.scroll_down c7st).map fun r => r.2.isEmpty) = some false ∧
    c7st.document.length ≤ c7st.offset.y + c7st.size.y := by
  refine ⟨by decide, ?_, by decide⟩
  decide

/-- **C8.**  When the terminal-event stream ends (`handle_event` receives
`None`), the handler returns success, sets the exit flag and changes nothing
else — exactly the result of an explicit `q` quit key — so `should_exit()`
returns `true` afterwards. -/
theorem C8_stream_end_sets_exit (st : UiState) :
    st.handle_event none = some ({ st with should_exit := true }, []) ∧
    st.handle_event (some (Event.key (KeyCode.char 'q'))) =
      some ({ st with should_exit := true }, []) ∧
    ({ st with should_exit := true } : UiState).should_exit = true :=
  ⟨rfl, by simp [UiState.handle_event], rfl⟩

/-- **C2 (amended).**  `DocumentView::queue_line_if_visible` reports a
stored index `k` as visible — drawing exactly that one line — if and only if
`offset.y ≤ k < offset.y + size.y`, independent of the document length.  The
amendment: the *other* cited push-and-report path,
`UiState::handle_line`, does not use this window: it draws the new line iff
its index is below `size.y - 2` (the pane height measured from the top of
the screen), independent of `offset.y`. -/
theorem C2_visibility_gate :
    (∀ (v : DocumentView) (k : Nat), k < v.document.len →
      (v.offset.y ≤ k ∧ k < v.offset.y + v.size.y →
        v.queue_line_if_visible k =
          (v.queue_line k).map (fun out => (true, out)) ∧
        (v.queue_line_if_visible k).map Prod.fst = some true) ∧
      (¬ (v.offset.y ≤ k ∧ k < v.offset.y + v.size.y) →
        v.queue_line_if_visible k = some (false, []))) ∧
    (∀ (st : UiState) (line : Line), 2 ≤ st.size.y → 1 ≤ st.size.x →
      ∃ st2 out, st.handle_line line = some (st2, out) ∧
        (out ≠ [] ↔ st.document.length < st.size.y - 2)) := by
  constructor
  · intro v k hk
    constructor
    · intro hvis
      have hc : v.visible_pane_rows.contains k := hvis
      constructor
      · rw [DocumentView.queue_line_if_visible, if_pos hc]
      · rw [DocumentView.queue_line_if_visible, if_pos hc]
        obtain ⟨out, hout⟩ :=
          Option.isSome_iff_exists.mp (DocumentView.queue_line_isSome v hk)
        rw [hout]
        rfl
    · intro hvis
      rw [DocumentView.queue_line_if_visible,
        if_neg (show ¬ v.visible_pane_rows.contains k from fun hc => hvis hc)]
  · intro st line h2 h1
    obtain ⟨st2, out, hline, _, hiff⟩ := UiState.handle_line_eq st line h2 h1
    exact ⟨st2, out, hline, hiff⟩

/-- Witness for **C2**: index 10 with `offset.y = 5`, `size.y = 10` is
reported visible (`5 ≤ 10 < 15`). -/
theorem C2_witness :
    (DocumentView.queue_line_if_visible c2v 10).map Prod.fst = some true ∧
    5 ≤ 10 ∧ 10 < 5 + 10 :=
  ⟨((C2_visibility_gate.1 c2v 10 (by decide)).1 (by decide)).2,
   by decide, by decide⟩

/-- Counterexample for **C2** as stated: pushing a line into `c2st`
(`offset.y = 5`, `size.y = 10`, 10 lines stored) stores it at index 10, which
the claim places inside the visible window `[5, 15)`; yet
`UiState::handle_line` draws nothing (its test is `10 ∈ 0..8`). -/
theorem C2_counterexample :
    UiState.handle_line c2st aLine =
      some (⟨List.replicate 10 aLine ++ [aLine], 1, ⟨0, 5⟩, false, ⟨8, 10⟩⟩, []) ∧
    c2st.offset.y ≤ 10 ∧ 10 < c2st.offset.y + c2st.size.y ∧
    c2st.document.length = 10 := by
  refine ⟨by decide, by decide, by decide, by decide⟩

/-- **C3 (code bug).**  Evaluating the two `queue_line` implementations at
the claim's example (`offset.x = 2`, `size.x = 3`, an 8-character line):
`DocumentView::queue_line` prints **four** characters (positions 2–5), one
more than the claim's `[offset.x, offset.x + size.x)` — its second
`nth(size.x)` call starts counting one past the already-consumed start
character.  `UiState::queue_line`, which passes `size.x - 1` instead,
prints exactly characters 2–4 as the claim (and the code's own comment
describing "one past the screen") requires.  Slicing is by codepoint:
the first view's line is multi-byte Greek. -/
theorem C3_queue_line_off_by_one :
    DocumentView.queue_line c3v 0 =
      some [Cmd.print ['γ', 'δ', 'ε', 'ζ'], Cmd.clearUntilNewLine,
            Cmd.moveToNextLine 1] ∧
    UiState.queue_line c3st 0 =
      some [Cmd.print ['c', 'd', 'e'], Cmd.clearUntilNewLine,
            Cmd.moveToNextLine 1] := by
  refine ⟨by decide, by decide⟩

/-- **C5 (amended).**  The key surface of `UiState::handle_event` is only:
`q`/`Q` set the exit flag; `j` dispatches `scroll_down`; `k` dispatches
`scroll_up`; every other key — including `h`, `l`, space, `?`, page-up and
page-down, which the claim said pan, page and open help — is silently
ignored: unchanged state, no output, success.  (No help overlay exists in
the dispatcher.) -/
theorem C5_key_dispatch :
    (∀ st : UiState,
      st.handle_event (some (Event.key (KeyCode.char 'q'))) =
        some ({ st with should_exit := true }, []) ∧
      st.handle_event (some (Event.key (KeyCode.char 'Q'))) =
        some ({ st with should_exit := true }, []) ∧
      st.handle_event (some (Event.key (KeyCode.char 'j'))) = st.scroll_down ∧
      st.handle_event (some (Event.key (KeyCode.char 'k'))) = st.scroll_up ∧
      st.handle_event (some (Event.key KeyCode.pageUp)) = some (st, []) ∧
      st.handle_event (some (Event.key KeyCode.pageDown)) = some (st, [])) ∧
    (∀ (st : UiState) (c : Char), c ≠ 'q' → c ≠ 'Q' → c ≠ 'j' → c ≠ 'k' →
      st.handle_event (some (Event.key (KeyCode.char c))) = some (st, [])) := by
  constructor
  · intro st
    refine ⟨by simp [UiState.handle_event], by simp [UiState.handle_event],
      by simp [UiState.handle_event], by simp [UiState.handle_event], rfl, rfl⟩
  · intro st c hq hQ hj hk
    simp [UiState.handle_event, hq, hQ, hj, hk]

/-- Witness for **C5**: the pan-left key `h` is silently ignored on a fresh
80×24 state. -/
theorem C5_witness :
    UiState.handle_event (UiState.new ⟨80, 24⟩)
      (some (Event.key (KeyCode.char 'h'))) =
      some (UiState.new ⟨80, 24⟩, []) :=
  C5_key_dispatch.2 (UiState.new ⟨80, 24⟩) 'h'
    (by decide) (by decide) (by decide) (by decide)

/-- Counterexample for **C5** as stated: on `c5st` (30 lines, 80×24) the
claim says space pages down (the document extends past the screen, so the
offset must move) and `?` opens help; the code leaves the state untouched
and emits nothing for space, `?`, `h` and `l` alike. -/
theorem C5_counterexample :
    UiState.handle_event c5st (some (Event.key (KeyCode.char ' '))) =
      some (c5st, []) ∧
    UiState.handle_event c5st (some (Event.key (KeyCode.char '?'))) =
      some (c5st, []) ∧
    UiState.handle_event c5st (some (Event.key (KeyCode.char 'h'))) =
      some (c5st, []) ∧
    UiState.handle_event c5st (some (Event.key (KeyCode.char 'l'))) =
      some (c5st, []) ∧
    c5st.size.y < c5st.document.length := by
  refine ⟨by decide, by decide, by decide, by decide, by decide⟩

/-- **C6.**  Safety of the column-slicing render path.  (1) A line with
fewer than `offset.x + 1` characters prints nothing but still clears the row
and advances to the next row — in both `queue_line` implementations, for any
`size`.  (2) `DocumentView::queue_line` never panics on any in-bounds line
(`UiState::queue_line` needs one terminal column, `size.x ≥ 1`, before it
reaches the slice — the `size.x - 1` pane subtraction, treated by C10).
(3) Whenever a start byte is found, the byte range `[s, qlStop)` that the
code slices lies on character boundaries, with `s ≤ qlStop ≤` the line's
byte length: the slice never reads past the line's end and cannot split a
multi-byte character. -/
theorem C6_queue_line_safety :
    (∀ (v : DocumentView) (i : Nat) (line : Line),
      v.document.index? i = some line → line.length < v.offset.x + 1 →
      v.queue_line i = some [Cmd.clearUntilNewLine, Cmd.moveToNextLine 1]) ∧
    (∀ (v : DocumentView) (i : Nat), i < v.document.len →
      (v.queue_line i).isSome) ∧
    (∀ (st : UiState) (i : Nat) (line : Line),
      st.document[i]? = some line → line.length < st.offset.x + 1 →
      st.queue_line i = some [Cmd.clearUntilNewLine, Cmd.moveToNextLine 1]) ∧
    (∀ (st : UiState) (i : Nat), i < st.document.length → 1 ≤ st.size.x →
      (st.queue_line i).isSome) ∧
    (∀ (l : Line) (offx k s : Nat), (charIndices l)[offx]? = some s →
      isCharBoundary l s ∧ isCharBoundary l (qlStop l offx k) ∧
      s ≤ qlStop l offx k ∧ qlStop l offx k ≤ utf8Len l) := by
  refine ⟨?_, ?_, ?_, ?_, ?_⟩
  · intro v i line h hx
    exact DocumentView.queue_line_short v h (by omega)
  · intro v i h
    exact DocumentView.queue_line_isSome v h
  · intro st i line h hx
    exact UiState.ui_queue_line_short st h (by omega)
  · intro st i h hsx
    exact UiState.ui_queue_line_isSome st h hsx
  · intro l offx k s hs
    have hlt : offx < l.length := by
      by_contra hge
      rw [charIndices_getElem?_none l offx (by omega)] at hs
      exact Option.noConfusion hs
    have hsv : s = utf8Len (l.take offx) := by
      have heq := charIndices_getElem? l offx hlt
      rw [heq] at hs
      exact (Option.some.inj hs).symm
    refine ⟨?_, ?_, ?_, ?_⟩
    · rw [hsv]
      exact isCharBoundary_take l offx
    · rw [qlStop_eq]
      exact isCharBoundary_take l _
    · rw [hsv, qlStop_eq]
      exact utf8Len_take_mono l (by omega)
    · rw [qlStop_eq]
      exact utf8Len_take_le l _

/-- Witness for **C6**: a 1-character line viewed at `offset.x = 2` yields
only a line-clear and a cursor advance — no print, no panic. -/
theorem C6_witness :
    DocumentView.queue_line c6v 0 =
      some [Cmd.clearUntilNewLine, Cmd.moveToNextLine 1] :=
  C6_queue_line_safety.1 c6v 0 aLine (by decide) (by decide)

/-- **C10 (amended).**  The `UiState` pane computations underflow on
degenerate terminals, but not in every listed operation: under
`size.y ≥ 2 ∧ size.x ≥ 1` (and in-bounds indices) `handle_line`,
`scroll_down`, `scroll_up`, `redraw_document`, `queue_line` and
`handle_resize` are all panic-free; with `size.y < 2`, `handle_line` and
`scroll_down` always panic (they evaluate `size.y - 2` in
`document_pane_rows` unconditionally); `handle_resize` to a 0-row terminal
panics in `draw_status_bar` (`size.y - 1`), and to a 1-row terminal panics
when `offset.y = 0` (the `offset.y + size.y - 2` underflow in
`visible_document_rows`); `queue_line` with `size.x = 0` panics exactly when
the line reaches the slicing path (`document_pane_cols`'s `size.x - 1`).
`scroll_up` at `offset.y = 0` and `queue_line` on short lines, by contrast,
return successfully on any terminal size, contrary to the claim's "for any
terminal size with `size.y < 2` or `size.x = 0` the operation panics". -/
theorem C10_small_terminal_underflow :
    (∀ (st : UiState) (line : Line), 2 ≤ st.size.y → 1 ≤ st.size.x →
      (st.handle_line line).isSome) ∧
    (∀ st : UiState, 2 ≤ st.size.y → 1 ≤ st.size.x →
      st.scroll_down.isSome ∧ st.scroll_up.isSome ∧
      st.redraw_document.isSome) ∧
    (∀ (st : UiState) (i : Nat), i < st.document.length → 1 ≤ st.size.x →
      (st.queue_line i).isSome) ∧
    (∀ (st : UiState) (ns : Vec2), 2 ≤ ns.y → 1 ≤ ns.x →
      (st.handle_resize ns).isSome) ∧
    (∀ (st : UiState) (line : Line), st.size.y < 2 →
      st.handle_line line = none ∧ st.scroll_down = none) ∧
    (∀ (st : UiState) (ns : Vec2), ns.y = 0 → st.handle_resize ns = none) ∧
    (∀ (st : UiState) (ns : Vec2), ns.y = 1 → st.offset.y = 0 →
      st.handle_resize ns = none) ∧
    (∀ (st : UiState) (i : Nat) (line : Line), st.document[i]? = some line →
      st.offset.x < line.length → st.size.x = 0 → st.queue_line i = none) := by
  refine ⟨?_, ?_, ?_, ?_, ?_, ?_, ?_, ?_⟩
  · intro st line h2 h1
    obtain ⟨st2, out, hline, _, _⟩ := UiState.handle_line_eq st line h2 h1
    rw [hline]
    rfl
  · intro st h2 h1
    exact ⟨UiState.scroll_down_isSome st h2 h1,
      UiState.scroll_up_isSome st h2 h1,
      UiState.redraw_document_isSome st h2 h1⟩
  · intro st i h hsx
    exact UiState.ui_queue_line_isSome st h hsx
  · intro st ns h2 h1
    exact UiState.handle_resize_isSome st ns h2 h1
  · intro st line h
    exact ⟨UiState.handle_line_underflow st line h,
      UiState.scroll_down_underflow st h⟩
  · intro st ns h
    exact UiState.handle_resize_zero_rows st ns h
  · intro st ns h hoff
    exact UiState.handle_resize_one_row st ns h hoff
  · intro st i line h hx hs
    exact UiState.queue_line_underflow st h hx hs

/-- Witness for **C10**: on an 80×24 terminal `handle_line` succeeds. -/
theorem C10_witness :
    (UiState.handle_line (UiState.new ⟨80, 24⟩) aLine).isSome :=
  C10_small_terminal_underflow.1 (UiState.new ⟨80, 24⟩) aLine
    (by decide) (by decide)

/-- Counterexample for **C10** as stated: `scroll_up` — one of the claim's
listed operations — on a 0×0 terminal (`size.y < 2`, `size.x = 0`) at
`offset.y = 0` returns `Ok` without panicking: its guard is false before any
pane geometry is computed. -/
theorem C10_counterexample :
    UiState.scroll_up c10st = some (c10st, []) ∧ c10st.size.y < 2 :=
  ⟨rfl, by decide⟩

/-- **C9.**  A mouse event is never dispatched to a handler: `handle_event`
on `Event::Mouse(..)` hits `unreachable!` — a contract-violation panic,
modelled by `none` — for every state, rather than silently ignoring the
event.  (Under the precondition that the backend never emits mouse events,
this branch is never taken.) -/
theorem C9_mouse_unreachable (st : UiState) :
    st.handle_event (some Event.mouse) = none := rfl

end Yap
